import Mathlib

/-!
Verification development for the CodeQAuditor static-analysis orchestration
platform.  The Python source is shallowly embedded: pure functions become Lean
functions over `String`/`Int`/`List`, the SQLAlchemy-backed store becomes an
explicit state record, and process execution becomes an explicit outcome value.
Python truthiness, `or`-defaulting and posix path manipulation are modelled by
small explicit helpers.
-/

namespace Audit

/-- Python `a or b` for an optional string `a`: `None` and `""` are falsy. -/
def pyOrS (a : Option String) (b : String) : String :=
  match a with
  | none => b
  | some s => if s = "" then b else s

/-- Python `a or b` for an optional integer `a`: `None` and `0` are falsy. -/
def pyOrI (a : Option Int) (b : Int) : Int :=
  match a with
  | none => b
  | some n => if n = 0 then b else n

/-- Python truthiness of an optional string (`None` and `""` are falsy). -/
def truthyS (a : Option String) : Bool :=
  match a with
  | none => false
  | some s => s ≠ ""

/-- Python truthiness of an optional integer (`None` and `0` are falsy). -/
def truthyI (a : Option Int) : Bool :=
  match a with
  | none => false
  | some n => n ≠ 0

/-- Whitespace characters stripped by Python `str.strip()` (ASCII range). -/
def isPyWS (c : Char) : Bool :=
  c = ' ' || c = '\t' || c = '\n' || c = '\x0d' || c = '\x0b' || c = '\x0c'

/-- Python `str.strip()`: drop whitespace from both ends. -/
def pyStrip (s : String) : String :=
  String.mk (((s.data.dropWhile isPyWS).reverse.dropWhile isPyWS).reverse)

/-- Python `"|".join parts`. -/
def joinWith (sep : String) : List String → String
  | [] => ""
  | [p] => p
  | p :: ps => p ++ sep ++ joinWith sep ps

/-- Split a character list at a separator character (Python `str.split(sep)`
semantics: empty pieces are kept, the empty string yields `[""]`). -/
def splitCharAux (sep : Char) : List Char → List (List Char)
  | [] => [[]]
  | c :: cs =>
    let r := splitCharAux sep cs
    if c = sep then [] :: r
    else
      match r with
      | [] => [[c]]
      | x :: xs => (c :: x) :: xs

/-- Python `s.split("/")`. -/
def splitSlash (s : String) : List String :=
  (splitCharAux '/' s.data).map String.mk

/-- Does the string start with the given character? -/
def startsWithChar (s : String) (c : Char) : Bool :=
  match s.data with
  | [] => false
  | d :: _ => d = c

end Audit

namespace Sha256

/-- Truncate to a 32-bit word. -/
def w32 (n : Nat) : Nat := n % 4294967296

/-- Right rotation of a 32-bit word. -/
def rotr (n x : Nat) : Nat := w32 ((x >>> n) ||| (x <<< (32 - n)))

/-- Bitwise complement on 32 bits. -/
def bnot (x : Nat) : Nat := 4294967295 ^^^ x

/-- The SHA-256 round constants. -/
def k : List Nat :=
  [1116352408, 1899447441, 3049323471, 3921009573, 961987163, 1508970993,
   2453635748, 2870763221, 3624381080, 310598401, 607225278, 1426881987,
   1925078388, 2162078206, 2614888103, 3248222580, 3835390401, 4022224774,
   264347078, 604807628, 770255983, 1249150122, 1555081692, 1996064986,
   2554220882, 2821834349, 2952996808, 3210313671, 3336571891, 3584528711,
   113926993, 338241895, 666307205, 773529912, 1294757372, 1396182291,
   1695183700, 1986661051, 2177026350, 2456956037, 2730485921, 2820302411,
   3259730800, 3345764771, 3516065817, 3600352804, 4094571909, 275423344,
   430227734, 506948616, 659060556, 883997877, 958139571, 1322822218,
   1537002063, 1747873779, 1955562222, 2024104815, 2227730452, 2361852424,
   2428436474, 2756734187, 3204031479, 3329325298]

/-- The SHA-256 initial hash state. -/
def h0 : List Nat :=
  [1779033703, 3144134277, 1013904242, 2773480762,
   1359893119, 2600822924, 528734635, 1541459225]

/-- Encode a natural number as `n` big-endian bytes. -/
def natBytesBE (n : Nat) (v : Nat) : List Nat :=
  (List.range n).map fun i => (v >>> (8 * (n - 1 - i))) % 256

/-- Pad a byte message per the SHA-256 rules (append `0x80`, zeros, and the
bit length as 8 big-endian bytes, to a multiple of 64 bytes). -/
def pad (msg : List Nat) : List Nat :=
  let l := msg.length
  let zeros := (64 - ((l + 9) % 64)) % 64
  msg ++ [0x80] ++ List.replicate zeros 0 ++ natBytesBE 8 (8 * l)

/-- Decode a 64-byte block as 16 big-endian 32-bit words. -/
def blockWords (block : List Nat) : List Nat :=
  (block.toChunks 4).map fun c =>
    c.foldl (fun acc b => acc * 256 + b) 0

/-- Extend the message schedule by `n` further words; `acc` holds the words
produced so far in reverse order (most recent first). -/
def scheduleRev : Nat → List Nat → List Nat
  | 0, acc => acc
  | n + 1, acc =>
    let w15 := acc.getD 14 0
    let w2 := acc.getD 1 0
    let s0 := (rotr 7 w15) ^^^ (rotr 18 w15) ^^^ (w15 >>> 3)
    let s1 := (rotr 17 w2) ^^^ (rotr 19 w2) ^^^ (w2 >>> 10)
    scheduleRev n (w32 (acc.getD 15 0 + s0 + acc.getD 6 0 + s1) :: acc)

/-- Extend 16 message words to the 64-word schedule. -/
def schedule (ws : List Nat) : List Nat := (scheduleRev 48 ws.reverse).reverse

/-- One compression round. -/
def round (st : List Nat) (ki wi : Nat) : List Nat :=
  match st with
  | [a, b, c, d, e, f, g, h] =>
    let s1 := (rotr 6 e) ^^^ (rotr 11 e) ^^^ (rotr 25 e)
    let ch := (e &&& f) ^^^ ((bnot e) &&& g)
    let t1 := w32 (h + s1 + ch + ki + wi)
    let s0 := (rotr 2 a) ^^^ (rotr 13 a) ^^^ (rotr 22 a)
    let mj := (a &&& b) ^^^ (a &&& c) ^^^ (b &&& c)
    let t2 := w32 (s0 + mj)
    [w32 (t1 + t2), a, b, c, w32 (d + t1), e, f, g]
  | st => st

/-- Compress one 64-byte block into the running hash state. -/
def compress (st : List Nat) (block : List Nat) : List Nat :=
  let w := schedule (blockWords block)
  let out := (k.zip w).foldl (fun acc p => round acc p.1 p.2) st
  (st.zip out).map fun p => w32 (p.1 + p.2)

/-- SHA-256 of a byte sequence, as the 32 digest bytes. -/
def sha256 (msg : List Nat) : List Nat :=
  let final := ((pad msg).toChunks 64).foldl compress h0
  final.foldr (fun wrd acc => natBytesBE 4 wrd ++ acc) []

/-- One hexadecimal digit. -/
def hexDigit (n : Nat) : String :=
  ["0", "1", "2", "3", "4", "5", "6", "7",
   "8", "9", "a", "b", "c", "d", "e", "f"].getD n "0"

/-- Lowercase hex rendering of a byte sequence. -/
def bytesHex (bs : List Nat) : String :=
  (bs.map fun b => hexDigit (b / 16) ++ hexDigit (b % 16)).foldl (· ++ ·) ""

/-- UTF-8 encoding of one unicode scalar value. -/
def utf8Char (c : Char) : List Nat :=
  let n := c.toNat
  if n < 0x80 then [n]
  else if n < 0x800 then
    [0xC0 ||| (n >>> 6), 0x80 ||| (n &&& 0x3F)]
  else if n < 0x10000 then
    [0xE0 ||| (n >>> 12), 0x80 ||| ((n >>> 6) &&& 0x3F), 0x80 ||| (n &&& 0x3F)]
  else
    [0xF0 ||| (n >>> 18), 0x80 ||| ((n >>> 12) &&& 0x3F),
     0x80 ||| ((n >>> 6) &&& 0x3F), 0x80 ||| (n &&& 0x3F)]

/-- UTF-8 encoding of a string (Python `s.encode("utf-8")`). -/
def strUtf8 (s : String) : List Nat := (s.data.map utf8Char).flatten

/-- Python `hashlib.sha256(key.encode("utf-8")).hexdigest()`. -/
def sha256HexOfString (key : String) : String := bytesHex (sha256 (strUtf8 key))

end Sha256

namespace PyPath

/-- `posixpath.isabs`. -/
def isAbs (p : String) : Bool := Audit.startsWithChar p '/'

/-- `pathlib.PurePosixPath(p).parts`: a leading `"/"` entry for absolute paths,
then the segments with empty and `"."` components removed (`".."` is kept). -/
def parts (p : String) : List String :=
  let body := ((Audit.splitSlash p).filter fun c => c ≠ "" && c ≠ ".")
  if isAbs p then "/" :: body else body

/-- Render a `parts` list back to a string, as `str(Path(*parts))` does;
an empty list renders as `"."`. -/
def renderParts : List String → String
  | [] => "."
  | "/" :: rest => "/" ++ Audit.joinWith "/" rest
  | ps => Audit.joinWith "/" ps

/-- `str(pathlib.PurePosixPath(p))`: parse and re-render (normalizes duplicate
slashes and `"."` components, keeps `".."`). -/
def pathStr (p : String) : String := renderParts (parts p)

/-- One step of `posixpath.normpath`'s component scan. -/
def normStep (isabs : Bool) (acc : List String) (comp : String) : List String :=
  if comp = "" ∨ comp = "." then acc
  else if comp ≠ ".." ∨ (¬isabs ∧ acc = []) ∨ acc.getLast? = some ".." then
    acc ++ [comp]
  else acc.dropLast

/-- `posixpath.normpath`. -/
def normpath (p : String) : String :=
  if p = "" then "." else
  let isabs := isAbs p
  let comps := (Audit.splitSlash p).foldl (normStep isabs) []
  let body := Audit.joinWith "/" comps
  let out := if isabs then "/" ++ body else body
  if out = "" then "." else out

/-- `posixpath.basename`: everything after the last slash. -/
def basename (p : String) : String := ((Audit.splitSlash p).getLast?).getD ""

/-- `pathlib.PurePosixPath(p).name`: final component, `""` for the root. -/
def pathName (p : String) : String :=
  match (parts p).getLast? with
  | some "/" => ""
  | some s => s
  | none => ""

/-- `posixpath.join(cwd, p)` restricted to the abspath use: keep `p` when it is
absolute, otherwise prefix the working directory. -/
def joinCwd (cwd p : String) : String :=
  if isAbs p then p else cwd ++ "/" ++ p

/-- `posixpath.abspath(p)` with the process working directory explicit. -/
def abspath (cwd p : String) : String := normpath (joinCwd cwd p)

/-- Length of the common prefix of two segment lists (`commonprefix`). -/
def commonPrefixLen : List String → List String → Nat
  | a :: as_, b :: bs => if a = b then commonPrefixLen as_ bs + 1 else 0
  | _, _ => 0

/-- `posixpath.relpath(p, start)` with the process working directory explicit:
make both absolute, drop the common prefix, climb with `".."`. -/
def relpath (cwd p start : String) : String :=
  let pl := (Audit.splitSlash (abspath cwd p)).filter (· ≠ "")
  let sl := (Audit.splitSlash (abspath cwd start)).filter (· ≠ "")
  let i := commonPrefixLen sl pl
  let rel := List.replicate (sl.length - i) ".." ++ pl.drop i
  if rel = [] then "." else Audit.joinWith "/" rel

/-- `pathlib.Path(p).resolve()` with the process working directory explicit
(symbolic links are outside the model: resolution is lexical). -/
def resolve (cwd p : String) : String := abspath cwd p

end PyPath

example : PyPath.pathStr "a//b/./c" = "a/b/c" := by decide
example : PyPath.pathStr "" = "." := by decide
example : PyPath.parts "/a/proj/proj/file.py" = ["/", "a", "proj", "proj", "file.py"] := by decide
example : PyPath.normpath "/a/../../b/" = "/b" := by decide
example : PyPath.relpath "/" "/proj/src/a.py" "/proj" = "src/a.py" := by decide
example : PyPath.relpath "/" "/proj" "/proj" = "." := by decide
example : PyPath.relpath "/" "/other/x" "/proj/sub" = "../../other/x" := by decide
example : PyPath.basename "/a/" = "" := by decide
example : PyPath.pathName "/" = "" := by decide
example : PyPath.pathName "proj/" = "proj" := by decide

set_option maxRecDepth 100000 in
example : Sha256.sha256HexOfString "abc" =
    "ba7816bf8f01cfea414140de5dae2223b00361a396177a9cb410ff61f20015ad" := by decide

set_option maxRecDepth 100000 in
example : Sha256.sha256HexOfString "" =
    "e3b0c44298fc1c149afbf4c8996fb92427ae41e4649b934ca495991b7852b855" := by decide

namespace Audit

/-- One finding row, the shape shared by every concrete result table
(`auditor/core/models/orm.py`, `ResultsBase` and its subclasses).  Columns a
given table does not have are `none`; `table` is the SQLAlchemy
`__tablename__`.  `scanId` mirrors the `scan_id` foreign key and `pk` the
content-hash primary key. -/
structure ResultRow where
  table : String
  scanId : Option Nat := none
  pk : Option String := none
  relpath : Option String := none
  file_path : Option String := some ""
  root : Option String := some ""
  fingerprint : Option String := none
  row_type : Option String := none
  metric_type : Option String := none
  rule_id : Option String := none
  check_id : Option String := none
  message : Option String := none
  line_number : Option Int := none
  end_line_number : Option Int := none
  col_offset : Option Int := none
  end_col_offset : Option Int := none
deriving DecidableEq, Repr

/-- The identity-relevant fields of a row: everything `build_pk` may read,
i.e. all columns except the `scan_id` foreign key and the stored `pk` itself. -/
def rowContent (r : ResultRow) :
    String × Option String × Option String × Option String × Option String ×
    Option String × Option String × Option String × Option String ×
    Option String × Option Int × Option Int × Option Int × Option Int :=
  (r.table, r.relpath, r.file_path, r.root, r.fingerprint, r.row_type,
   r.metric_type, r.rule_id, r.check_id, r.message, r.line_number,
   r.end_line_number, r.col_offset, r.end_col_offset)

/-- String rendering of one optional identity column, with Python truthiness:
falsy values (`None`, `""`) contribute nothing (`ResultsBase.build_pk`'s
`if val: parts.append(str(val))`). -/
def colPartS (v : Option String) : List String :=
  if truthyS v then [v.getD ""] else []

/-- Same for integer columns: `None` and `0` are falsy, other values are
rendered with Python `str`. -/
def colPartI (v : Option Int) : List String :=
  if truthyI v then [toString (v.getD 0)] else []

/-- `str(val).replace("\\", "/")`: the backslash normalization `build_pk`
applies to the root and to the relative path.  The pattern is the single
backslash character, so the replacement is character-wise. -/
def replaceBackslash (s : String) : String :=
  String.mk (s.data.map fun c => if c = '\\' then '/' else c)

/-- The `"|"`-joined key string hashed by `ResultsBase.build_pk`
(`auditor/core/models/orm.py` lines 168-193): table name, normalized root,
path relative to the root, then the truthy identity columns in the fixed
order `fingerprint, row_type, metric_type, rule_id, check_id, message,
line_number, end_line_number, col_offset, end_col_offset`.  `cwd` stands for
the process working directory consulted by `os.path.relpath` when `root` is
relative. -/
def pkKey (cwd : String) (r : ResultRow) : String :=
  let rel_or_file := pyOrS r.relpath (pyOrS r.file_path "")
  let root := replaceBackslash (pyOrS r.root "")
  let rel :=
    if root ≠ "" ∧ PyPath.isAbs rel_or_file then PyPath.relpath cwd rel_or_file root
    else rel_or_file
  let rel := replaceBackslash rel
  let parts := [r.table, root, rel] ++
    colPartS r.fingerprint ++ colPartS r.row_type ++ colPartS r.metric_type ++
    colPartS r.rule_id ++ colPartS r.check_id ++ colPartS r.message ++
    colPartI r.line_number ++ colPartI r.end_line_number ++
    colPartI r.col_offset ++ colPartI r.end_col_offset
  joinWith "|" parts

/-- `ResultsBase.build_pk`: SHA-256 hex digest of the identity key. -/
def build_pk (cwd : String) (r : ResultRow) : String :=
  Sha256.sha256HexOfString (pkKey cwd r)

end Audit

namespace Audit

theorem build_pk_eq_sha (cwd : String) (r : ResultRow) :
    build_pk cwd r = Sha256.sha256HexOfString (pkKey cwd r) := rfl

theorem rowContent_scan_irrel (r : ResultRow) (s : Option Nat) :
    rowContent { r with scanId := s } = rowContent r := rfl

theorem build_pk_scan_irrel (cwd : String) (r : ResultRow) (s : Option Nat) :
    build_pk cwd { r with scanId := s } = build_pk cwd r := rfl

end Audit

namespace Audit

end Audit

namespace Audit

end Audit

namespace Audit

end Audit

namespace Audit

/-- The anchor folder name used by `strip_before_start_root`:
`os.path.basename(os.path.normpath(start_root))`. -/
def anchorFolder (start_root : String) : String :=
  PyPath.basename (PyPath.normpath start_root)

/-- The enumerated match positions of `strip_before_start_root`:
`[i for i, part in enumerate(parts) if part == start_folder]`. -/
def anchorIndices (ps : List String) (folder : String) : List Nat :=
  (List.range ps.length).filter fun i => ps.getD i "" = folder

/-- `strip_before_start_root` (`auditor/core/models/parsers/_shared.py` lines
129-144): drop every path component before the last occurrence of the anchor
folder name; falsy `start_root` or no occurrence returns the input unchanged. -/
def strip_before_start_root (abs_path : String) (start_root : Option String) : String :=
  if ¬ truthyS start_root then abs_path
  else
    let start_folder := anchorFolder (start_root.getD "")
    let ps := PyPath.parts abs_path
    match (anchorIndices ps start_folder).getLast? with
    | none => abs_path
    | some i => PyPath.renderParts (ps.drop i)

theorem getLast_of_pairwise_lt {l : List Nat} {m : Nat} (hp : l.Pairwise (· < ·))
    (hm : m ∈ l) (hmax : ∀ i ∈ l, i ≤ m) : l.getLast? = some m := by
  induction l with
  | nil => cases hm
  | cons a t ih =>
    cases t with
    | nil =>
      simp only [List.mem_singleton] at hm
      simp [hm]
    | cons b t2 =>
      rw [List.getLast?_cons_cons]
      have hpt : (b :: t2).Pairwise (· < ·) := hp.of_cons
      have hab : ∀ i ∈ b :: t2, a < i := by
        intro i hi
        exact (List.pairwise_cons.mp hp).1 i hi
      rcases List.mem_cons.mp hm with h | h
      · exfalso
        have := hmax b (by simp)
        have := hab b (by simp)
        omega
      · exact ih hpt h fun i hi => hmax i (by simp [hi])

theorem anchorIndices_pairwise (ps : List String) (folder : String) :
    (anchorIndices ps folder).Pairwise (· < ·) :=
  (List.pairwise_lt_range ps.length).sublist (List.filter_sublist _)

theorem mem_anchorIndices {ps : List String} {folder : String} {i : Nat} :
    i ∈ anchorIndices ps folder ↔ i < ps.length ∧ ps.getD i "" = folder := by
  unfold anchorIndices
  rw [List.mem_filter, List.mem_range]
  simp

theorem anchorIndices_getLast {pre suf : List String} {folder : String}
    (hsuf : folder ∉ suf) :
    (anchorIndices (pre ++ folder :: suf) folder).getLast? = some pre.length := by
  apply getLast_of_pairwise_lt (anchorIndices_pairwise _ _)
  · rw [mem_anchorIndices]
    constructor
    · simp
    · rw [List.getD_eq_getElem?_getD, List.getElem?_append_right (by omega)]
      simp
  · intro i hi
    rw [mem_anchorIndices] at hi
    obtain ⟨hilen, hival⟩ := hi
    by_contra hgt
    push_neg at hgt
    have : (pre ++ folder :: suf).getD i "" ∈ suf := by
      rw [List.getD_eq_getElem?_getD, List.getElem?_append_right (by omega)]
      have hidx : i - pre.length = (i - pre.length - 1) + 1 := by omega
      rw [hidx, List.getElem?_cons_succ]
      have hlt : i - pre.length - 1 < suf.length := by
        simp at hilen
        omega
      rw [List.getElem?_eq_getElem hlt]
      exact List.getElem_mem hlt
    rw [hival] at this
    exact hsuf this

end Audit

namespace Audit

/-- C5: anchor clipping returns the path suffix starting at the right-most
segment equal to the anchor folder name, leaves the path unchanged when no
segment matches, and in particular clips `/a/proj/proj/file.py` at anchor
`proj` to `proj/file.py` (the right-most match). -/
theorem strip_anchor (p a : String) (pre suf : List String) (ha : a ≠ "")
    (hdecomp : PyPath.parts p = pre ++ anchorFolder a :: suf)
    (hsuf : anchorFolder a ∉ suf) :
    strip_before_start_root p (some a) =
      PyPath.renderParts (anchorFolder a :: suf) ∧
    (∀ q b, anchorFolder b ∉ PyPath.parts q →
      strip_before_start_root q (some b) = q) ∧
    strip_before_start_root "/a/proj/proj/file.py" (some "proj") = "proj/file.py" := by
  refine ⟨?_, ?_, by decide⟩
  · unfold strip_before_start_root
    rw [if_neg (by simp [truthyS, ha])]
    simp only [Option.getD_some]
    rw [hdecomp, anchorIndices_getLast hsuf]
    simp only []
    rw [List.drop_left]
  · intro q b hnm
    unfold strip_before_start_root
    split
    · rfl
    · have hempty : anchorIndices (PyPath.parts q) (anchorFolder b) = [] := by
        rw [List.eq_nil_iff_forall_not_mem]
        intro i hi
        rw [mem_anchorIndices] at hi
        obtain ⟨hl, hv⟩ := hi
        apply hnm
        rw [← hv, List.getD_eq_getElem?_getD, List.getElem?_eq_getElem hl]
        exact List.getElem_mem hl
      simp only [Option.getD_some, hempty]
      rfl

/-- Witness for C5 at the spec's own example. -/
theorem strip_anchor_witness :
    ("proj" ≠ "") ∧
    (PyPath.parts "/a/proj/proj/file.py" =
      ["/", "a", "proj"] ++ anchorFolder "proj" :: ["file.py"]) ∧
    (anchorFolder "proj" ∉ ["file.py"]) ∧
    (strip_before_start_root "/a/proj/proj/file.py" (some "proj") =
      PyPath.renderParts (anchorFolder "proj" :: ["file.py"]) ∧
    (∀ q b, anchorFolder b ∉ PyPath.parts q →
      strip_before_start_root q (some b) = q) ∧
    strip_before_start_root "/a/proj/proj/file.py" (some "proj") = "proj/file.py") :=
  ⟨by decide, by decide, by decide,
   strip_anchor "/a/proj/proj/file.py" "proj" ["/", "a", "proj"] ["file.py"]
     (by decide) (by decide) (by decide)⟩

end Audit

namespace Audit

/-- `relativize_path` (`auditor/core/models/parsers/_shared.py` lines 95-126),
with the process working directory `procCwd` explicit (Python consults
`Path.cwd()` when `cwd` is relative).  Falsy `value` is returned as is; a
missing `cwd` yields the normalized original; an absolute `value` is
relativized against the (resolved) base and then re-anchored under the base's
final component (the root label) unless it already starts with it; the
Python `except` fallback is unreachable here because every modelled
operation is total. -/
def relativize_path (procCwd : String) (value : Option String)
    (cwd : Option String) : Option String :=
  match value with
  | none => none
  | some v =>
    if v = "" then some v
    else
      match cwd with
      | none => some (PyPath.pathStr v)
      | some c =>
        if c = "" then some (PyPath.pathStr v)
        else
          let baseStr :=
            if PyPath.isAbs c then PyPath.pathStr c else PyPath.abspath procCwd c
          let rel :=
            if PyPath.isAbs v then PyPath.relpath procCwd (PyPath.pathStr v) baseStr
            else PyPath.pathStr v
          let root_label := PyPath.pathName baseStr
          if PyPath.pathStr rel = "." then
            some (if root_label ≠ "" then root_label else ".")
          else if root_label ≠ "" ∧
              ((PyPath.parts rel).head? ≠ some root_label) then
            some (PyPath.renderParts (root_label :: PyPath.parts rel))
          else
            some (PyPath.pathStr rel)

/-- The re-anchoring step of `relativize_path`, stated on its own: a `"."`
relative path becomes the root label, and any relative path not already
starting with the root label is prefixed with it. -/
def labelAdjust (label rel : String) : String :=
  if PyPath.pathStr rel = "." then (if label ≠ "" then label else ".")
  else if label ≠ "" ∧ ((PyPath.parts rel).head? ≠ some label) then
    PyPath.renderParts (label :: PyPath.parts rel)
  else PyPath.pathStr rel

/-- The absolute, `""`-filtered segment view that `PyPath.relpath` compares. -/
def msegs (procCwd p : String) : List String :=
  (Audit.splitSlash (PyPath.abspath procCwd p)).filter (· ≠ "")

theorem commonPrefixLen_append (l r : List String) :
    PyPath.commonPrefixLen l (l ++ r) = l.length := by
  induction l with
  | nil => cases r <;> rfl
  | cons a t ih => simp [PyPath.commonPrefixLen, ih]

theorem relpath_under (procCwd p s : String) (rest : List String)
    (h : msegs procCwd p = msegs procCwd s ++ rest) (hne : rest ≠ []) :
    PyPath.relpath procCwd p s = joinWith "/" rest := by
  unfold PyPath.relpath
  unfold msegs at h
  rw [h]
  simp only [commonPrefixLen_append, Nat.sub_self, List.replicate_zero,
    List.drop_left, List.nil_append]
  rw [if_neg hne]

end Audit

namespace Audit

/-- C4 counterexample: for the absolute path `/proj/src/a.py` under
`cwd = /proj`, `relativize_path` returns `proj/src/a.py` — the relative path
re-anchored under the root label — not the plain relative path `src/a.py`
demanded by the claim. -/
theorem relativize_path_counterexample :
    relativize_path "/" (some "/proj/src/a.py") (some "/proj") =
      some "proj/src/a.py" ∧
    PyPath.relpath "/" "/proj/src/a.py" "/proj" = "src/a.py" ∧
    relativize_path "/" (some "/proj/src/a.py") (some "/proj") ≠
      some (PyPath.relpath "/" "/proj/src/a.py" "/proj") :=
  ⟨by decide, by decide, by decide⟩

/-- C4 (amended): for an absolute `value` and absolute `cwd`,
`relativize_path` returns the path relative to `cwd` re-anchored under the
root label (the final component of `cwd`) unless it already starts with that
label; for a path under `cwd` the relative part is the plain segment suffix;
without a `cwd` it returns the normalized original; and it is a total
function that passes falsy input through unchanged. -/
theorem relativize_path_spec (procCwd v c : String)
    (hv : PyPath.isAbs v = true) (hc : PyPath.isAbs c = true) :
    relativize_path procCwd (some v) (some c) =
      some (labelAdjust (PyPath.pathName (PyPath.pathStr c))
        (PyPath.relpath procCwd (PyPath.pathStr v) (PyPath.pathStr c))) ∧
    (∀ rest, rest ≠ [] →
      msegs procCwd (PyPath.pathStr v) = msegs procCwd (PyPath.pathStr c) ++ rest →
      PyPath.relpath procCwd (PyPath.pathStr v) (PyPath.pathStr c) =
        joinWith "/" rest) ∧
    (∀ w, w ≠ "" → relativize_path procCwd (some w) none = some (PyPath.pathStr w)) ∧
    relativize_path procCwd none (some c) = none ∧
    relativize_path procCwd (some "") (some c) = some "" := by
  have hvne : v ≠ "" := by
    intro h
    subst h
    simp [PyPath.isAbs, startsWithChar] at hv
  have hcne : c ≠ "" := by
    intro h
    subst h
    simp [PyPath.isAbs, startsWithChar] at hc
  refine ⟨?_, ?_, ?_, rfl, by simp [relativize_path]⟩
  · simp only [relativize_path, if_neg hvne, if_neg hcne, hv, hc, if_true,
      labelAdjust]
    split
    · rfl
    · split <;> rfl
  · intro rest hne h
    exact relpath_under procCwd _ _ rest h hne
  · intro w hw
    simp [relativize_path, hw]

/-- Witness for C4's amended claim at the counterexample's own input. -/
theorem relativize_path_spec_witness :
    PyPath.isAbs "/proj/src/a.py" = true ∧ PyPath.isAbs "/proj" = true ∧
    (relativize_path "/" (some "/proj/src/a.py") (some "/proj") =
      some (labelAdjust (PyPath.pathName (PyPath.pathStr "/proj"))
        (PyPath.relpath "/" (PyPath.pathStr "/proj/src/a.py")
          (PyPath.pathStr "/proj"))) ∧
    (∀ rest, rest ≠ [] →
      msegs "/" (PyPath.pathStr "/proj/src/a.py") =
        msegs "/" (PyPath.pathStr "/proj") ++ rest →
      PyPath.relpath "/" (PyPath.pathStr "/proj/src/a.py")
        (PyPath.pathStr "/proj") = joinWith "/" rest) ∧
    (∀ w, w ≠ "" → relativize_path "/" (some w) none = some (PyPath.pathStr w)) ∧
    relativize_path "/" none (some "/proj") = none ∧
    relativize_path "/" (some "") (some "/proj") = some "") :=
  ⟨by decide, by decide,
   relativize_path_spec "/" "/proj/src/a.py" "/proj" (by decide) (by decide)⟩

end Audit

namespace Radon

/-- One cyclomatic-complexity block as consumed by `_aggregate_cc_list`
(`auditor/core/models/parsers/radon.py`): the numeric score
(`float(b.get("complexity", 0) or 0)`, modelled exactly as a rational) and
the letter rank (`str(b.get("rank", "A"))`). -/
structure CCBlock where
  complexity : ℚ
  rank : String
deriving DecidableEq, Repr

/-- The aggregate produced per file (`CCAggregate` pydantic model); the rank
histogram is the counts dict read through `get(r, 0)`. -/
structure CCAggregate where
  cc_blocks : Nat
  cc_total : ℚ
  cc_max : ℚ
  cc_avg : ℚ
  cc_worst_rank : String
  cc_rank_counts : String → Nat

/-- `_RANK_ORDER = ["A", "B", "C", "D", "E", "F"]`. -/
def _RANK_ORDER : List String := ["A", "B", "C", "D", "E", "F"]

/-- Position of an element in a list, if present (`list.index`). -/
def indexIn (x : String) : List String → Option Nat
  | [] => none
  | y :: ys => if y = x then some 0 else (indexIn x ys).map (· + 1)

/-- `_RANK_ORDER.index(r) if r in _RANK_ORDER else -1`. -/
def rankIndex (r : String) : Int :=
  match indexIn r _RANK_ORDER with
  | some i => (i : Int)
  | none => -1

/-- `_rank_worse`: keep whichever rank sits later in `_RANK_ORDER`, the
second argument on ties. -/
def _rank_worse (a b : String) : String :=
  if rankIndex a > rankIndex b then a else b

/-- The running state of `_aggregate_cc_list`'s loop: total, max, histogram
and worst rank so far. -/
structure CCAcc where
  total : ℚ
  mx : ℚ
  counts : String → Nat
  worst : String

/-- One iteration of the `for b in blocks` loop. -/
def ccStep (st : CCAcc) (b : CCBlock) : CCAcc :=
  { total := st.total + b.complexity,
    mx := if b.complexity > st.mx then b.complexity else st.mx,
    counts := Function.update st.counts b.rank (st.counts b.rank + 1),
    worst := _rank_worse st.worst b.rank }

/-- `_aggregate_cc_list` (`radon.py` lines 80-101): fold the per-block loop
from `total = 0.0`, `cc_max = 0.0`, empty histogram, `worst = "A"`, then
divide by `len(blocks) or 1`. -/
def _aggregate_cc_list (blocks : List CCBlock) : CCAggregate :=
  let st := blocks.foldl ccStep ⟨0, 0, fun _ => 0, "A"⟩
  let n : ℚ := if blocks.length = 0 then 1 else blocks.length
  { cc_blocks := blocks.length, cc_total := st.total, cc_max := st.mx,
    cc_avg := st.total / n, cc_worst_rank := st.worst,
    cc_rank_counts := st.counts }

theorem fold_total (bs : List CCBlock) (st : CCAcc) :
    (bs.foldl ccStep st).total = st.total + (bs.map CCBlock.complexity).sum := by
  induction bs generalizing st with
  | nil => simp
  | cons b t ih =>
    simp only [List.foldl_cons, ih, List.map_cons, List.sum_cons, ccStep]
    ring

theorem fold_counts (bs : List CCBlock) (st : CCAcc) (r : String) :
    (bs.foldl ccStep st).counts r = st.counts r + (bs.map CCBlock.rank).count r := by
  induction bs generalizing st with
  | nil => simp
  | cons b t ih =>
    simp only [List.foldl_cons, ih, List.map_cons, ccStep]
    by_cases h : b.rank = r
    · subst h
      simp [Function.update, List.count_cons]
      omega
    · simp [Function.update, Ne.symm h, h, List.count_cons]

theorem fold_mx_ge (bs : List CCBlock) (st : CCAcc) :
    st.mx ≤ (bs.foldl ccStep st).mx ∧
    ∀ b ∈ bs, b.complexity ≤ (bs.foldl ccStep st).mx := by
  induction bs generalizing st with
  | nil => simp
  | cons b t ih =>
    simp only [List.foldl_cons]
    obtain ⟨h1, h2⟩ := ih (ccStep st b)
    have hstep : st.mx ≤ (ccStep st b).mx ∧ b.complexity ≤ (ccStep st b).mx := by
      simp only [ccStep]
      split <;> constructor <;> first | rfl | linarith
    refine ⟨le_trans hstep.1 h1, ?_⟩
    intro b2 hb2
    rcases List.mem_cons.mp hb2 with h | h
    · subst h
      exact le_trans hstep.2 h1
    · exact h2 b2 h

theorem fold_mx_mem (bs : List CCBlock) (st : CCAcc) :
    (bs.foldl ccStep st).mx = st.mx ∨
    (bs.foldl ccStep st).mx ∈ bs.map CCBlock.complexity := by
  induction bs generalizing st with
  | nil => simp
  | cons b t ih =>
    simp only [List.foldl_cons, List.map_cons]
    rcases ih (ccStep st b) with h | h
    · rw [h]
      simp only [ccStep]
      split
      · right; simp
      · left; rfl
    · right
      simp [h]

theorem rank_worse_left (a b : String) :
    rankIndex a ≤ rankIndex (_rank_worse a b) := by
  unfold _rank_worse
  split <;> omega

theorem rank_worse_right (a b : String) :
    rankIndex b ≤ rankIndex (_rank_worse a b) := by
  unfold _rank_worse
  split <;> omega

theorem rank_worse_cases (a b : String) :
    _rank_worse a b = a ∨ _rank_worse a b = b := by
  unfold _rank_worse
  split
  · exact Or.inl rfl
  · exact Or.inr rfl

theorem fold_worst_ge (bs : List CCBlock) (st : CCAcc) :
    rankIndex st.worst ≤ rankIndex (bs.foldl ccStep st).worst ∧
    ∀ b ∈ bs, rankIndex b.rank ≤ rankIndex (bs.foldl ccStep st).worst := by
  induction bs generalizing st with
  | nil => simp
  | cons b t ih =>
    simp only [List.foldl_cons]
    obtain ⟨h1, h2⟩ := ih (ccStep st b)
    have hstep1 : rankIndex st.worst ≤ rankIndex (ccStep st b).worst :=
      rank_worse_left _ _
    have hstep2 : rankIndex b.rank ≤ rankIndex (ccStep st b).worst :=
      rank_worse_right _ _
    refine ⟨le_trans hstep1 h1, ?_⟩
    intro b2 hb2
    rcases List.mem_cons.mp hb2 with h | h
    · subst h
      exact le_trans hstep2 h1
    · exact h2 b2 h

theorem fold_worst_mem (bs : List CCBlock) (st : CCAcc) :
    (bs.foldl ccStep st).worst = st.worst ∨
    (bs.foldl ccStep st).worst ∈ bs.map CCBlock.rank := by
  induction bs generalizing st with
  | nil => simp
  | cons b t ih =>
    simp only [List.foldl_cons, List.map_cons]
    rcases ih (ccStep st b) with h | h
    · rw [h]
      rcases rank_worse_cases st.worst b.rank with h2 | h2
    

      · left
        exact h2
      · right
        rw [show (ccStep st b).worst = _rank_worse st.worst b.rank from rfl, h2]
        simp
    · right
      simp [h]

theorem rank_zero_eq_A {r : String} (hr : r ∈ _RANK_ORDER)
    (h0 : rankIndex r ≤ 0) : r = "A" := by
  simp only [_RANK_ORDER, List.mem_cons, List.mem_singleton] at hr
  rcases hr with rfl | rfl | rfl | rfl | rfl | hr
  · rfl
  · simp [rankIndex, indexIn] at h0
  · simp [rankIndex, indexIn] at h0
  · simp [rankIndex, indexIn] at h0
  · simp [rankIndex, indexIn] at h0
  · rcases hr with rfl | hr
    · simp [rankIndex, indexIn] at h0
    · cases hr

end Radon

namespace Radon

/-- C6: for a non-empty block list with non-negative numeric scores and
letter ranks, `_aggregate_cc_list` returns the block count, the total, the
maximum score, the mean (total over block count), the rank histogram, and a
worst rank that is the present rank of highest index in the fixed order
`[A, B, C, D, E, F]` (ties broken by index order, not by count). -/
theorem aggregate_cc_spec (blocks : List CCBlock)
    (hne : blocks ≠ [])
    (hscore : ∀ b ∈ blocks, 0 ≤ b.complexity)
    (hrank : ∀ b ∈ blocks, b.rank ∈ _RANK_ORDER) :
    (_aggregate_cc_list blocks).cc_blocks = blocks.length ∧
    (_aggregate_cc_list blocks).cc_total = (blocks.map CCBlock.complexity).sum ∧
    ((_aggregate_cc_list blocks).cc_max ∈ blocks.map CCBlock.complexity ∧
      ∀ b ∈ blocks, b.complexity ≤ (_aggregate_cc_list blocks).cc_max) ∧
    (_aggregate_cc_list blocks).cc_avg =
      (_aggregate_cc_list blocks).cc_total / (blocks.length : ℚ) ∧
    (∀ r, (_aggregate_cc_list blocks).cc_rank_counts r =
      (blocks.map CCBlock.rank).count r) ∧
    ((_aggregate_cc_list blocks).cc_worst_rank ∈ blocks.map CCBlock.rank ∧
      ∀ b ∈ blocks, rankIndex b.rank ≤
        rankIndex (_aggregate_cc_list blocks).cc_worst_rank) := by
  have hlen : blocks.length ≠ 0 := by
    simpa [List.length_eq_zero] using hne
  simp only [_aggregate_cc_list, if_neg hlen]
  refine ⟨trivial, ?_, ⟨?_, ?_⟩, trivial, ?_, ⟨?_, ?_⟩⟩
  · rw [fold_total]
    simp
  · rcases fold_mx_mem blocks ⟨0, 0, fun _ => 0, "A"⟩ with h | h
    · obtain ⟨b0, t, rfl⟩ : ∃ b0 t, blocks = b0 :: t := by
        cases blocks with
        | nil => exact absurd rfl hne
        | cons b0 t => exact ⟨b0, t, rfl⟩
      have hle := (fold_mx_ge (b0 :: t) ⟨0, 0, fun _ => 0, "A"⟩).2 b0 (by simp)
      rw [h] at hle
      have h0 : b0.complexity = 0 := le_antisymm hle (hscore b0 (by simp))
      rw [h, ← h0]
      simp
    · exact h
  · exact (fold_mx_ge blocks _).2
  · intro r
    rw [fold_counts]
    simp
  · rcases fold_worst_mem blocks ⟨0, 0, fun _ => 0, "A"⟩ with h | h
    · obtain ⟨b0, t, rfl⟩ : ∃ b0 t, blocks = b0 :: t := by
        cases blocks with
        | nil => exact absurd rfl hne
        | cons b0 t => exact ⟨b0, t, rfl⟩
      have hle := (fold_worst_ge (b0 :: t) ⟨0, 0, fun _ => 0, "A"⟩).2 b0 (by simp)
      rw [h] at hle
      have hA : rankIndex "A" = 0 := by decide
      have hle2 : rankIndex b0.rank ≤ rankIndex "A" := hle
      rw [hA] at hle2
      have h0 : b0.rank = "A" :=
        rank_zero_eq_A (hrank b0 (by simp)) hle2
      rw [h, ← h0]
      simp
    · exact h
  · exact (fold_worst_ge blocks _).2

/-- Witness for C6 on a concrete three-block file. -/
theorem aggregate_cc_spec_witness :
    (([⟨3, "B"⟩, ⟨7, "F"⟩, ⟨2, "B"⟩] : List CCBlock) ≠ []) ∧
    (∀ b ∈ ([⟨3, "B"⟩, ⟨7, "F"⟩, ⟨2, "B"⟩] : List CCBlock), 0 ≤ b.complexity) ∧
    (∀ b ∈ ([⟨3, "B"⟩, ⟨7, "F"⟩, ⟨2, "B"⟩] : List CCBlock), b.rank ∈ _RANK_ORDER) ∧
    ((_aggregate_cc_list [⟨3, "B"⟩, ⟨7, "F"⟩, ⟨2, "B"⟩]).cc_blocks =
      ([⟨3, "B"⟩, ⟨7, "F"⟩, ⟨2, "B"⟩] : List CCBlock).length ∧
     (_aggregate_cc_list [⟨3, "B"⟩, ⟨7, "F"⟩, ⟨2, "B"⟩]).cc_total =
      (([⟨3, "B"⟩, ⟨7, "F"⟩, ⟨2, "B"⟩] : List CCBlock).map CCBlock.complexity).sum ∧
     ((_aggregate_cc_list [⟨3, "B"⟩, ⟨7, "F"⟩, ⟨2, "B"⟩]).cc_max ∈
       ([⟨3, "B"⟩, ⟨7, "F"⟩, ⟨2, "B"⟩] : List CCBlock).map CCBlock.complexity ∧
      ∀ b ∈ ([⟨3, "B"⟩, ⟨7, "F"⟩, ⟨2, "B"⟩] : List CCBlock), b.complexity ≤
        (_aggregate_cc_list [⟨3, "B"⟩, ⟨7, "F"⟩, ⟨2, "B"⟩]).cc_max) ∧
     (_aggregate_cc_list [⟨3, "B"⟩, ⟨7, "F"⟩, ⟨2, "B"⟩]).cc_avg =
      (_aggregate_cc_list [⟨3, "B"⟩, ⟨7, "F"⟩, ⟨2, "B"⟩]).cc_total /
        (([⟨3, "B"⟩, ⟨7, "F"⟩, ⟨2, "B"⟩] : List CCBlock).length : ℚ) ∧
     (∀ r, (_aggregate_cc_list [⟨3, "B"⟩, ⟨7, "F"⟩, ⟨2, "B"⟩]).cc_rank_counts r =
      (([⟨3, "B"⟩, ⟨7, "F"⟩, ⟨2, "B"⟩] : List CCBlock).map CCBlock.rank).count r) ∧
     ((_aggregate_cc_list [⟨3, "B"⟩, ⟨7, "F"⟩, ⟨2, "B"⟩]).cc_worst_rank ∈
       ([⟨3, "B"⟩, ⟨7, "F"⟩, ⟨2, "B"⟩] : List CCBlock).map CCBlock.rank ∧
      ∀ b ∈ ([⟨3, "B"⟩, ⟨7, "F"⟩, ⟨2, "B"⟩] : List CCBlock), rankIndex b.rank ≤
        rankIndex (_aggregate_cc_list [⟨3, "B"⟩, ⟨7, "F"⟩, ⟨2, "B"⟩]).cc_worst_rank)) :=
  ⟨by decide, by decide, by decide,
   aggregate_cc_spec [⟨3, "B"⟩, ⟨7, "F"⟩, ⟨2, "B"⟩]
     (by decide) (by decide) (by decide)⟩

end Radon

namespace Sandbox

/-- The uniform run record of one analyzer invocation (`ToolRunResult`):
tool id, argv, working directory, exit code, wall-clock duration, captured
streams, and the best-effort parsed payload.  The payload is kept as the raw
accepted text since `json.loads` is an external library. -/
structure ToolRunResult where
  tool : String
  cmd : List String
  cwd : String
  returncode : Int
  duration_s : ℚ
  stdout : String
  stderr : String
  parsed_json : Option String
deriving DecidableEq, Repr

/-- The observable outcome of `subprocess.run`: the process completed with
an exit code, or `TimeoutExpired` was raised carrying the partially captured
streams (already decoded from bytes, absent when nothing was captured). -/
inductive SubprocOutcome where
  | completed (returncode : Int) (stdout stderr : String)
  | timedOut (stdout stderr : Option String)
deriving DecidableEq, Repr

/-- The marker `AuditTool._run` appends to stderr on timeout. -/
def timeoutMarker (timeout_s : Nat) : String :=
  "\n[TIMEOUT after " ++ toString timeout_s ++ "s]"

/-- `AuditTool._run` (`auditor/infra/tools/base.py` lines 260-317) as a
total function of the subprocess outcome.  `jsonLoads` stands for the
external `json.loads` (`none` on parse failure), `procCwd` for
`os.getcwd()`, `duration` for the measured wall clock.  The
`TimeoutExpired` branch synthesizes a record instead of re-raising: exit
code 124, captured partial output, and the timeout marker appended to
stderr. -/
def toolRun (name : String) (timeout_s : Nat) (procCwd : String)
    (jsonLoads : String → Option String) (duration : ℚ)
    (cmd : List String) (cwd : Option String) (outcome : SubprocOutcome) :
    ToolRunResult :=
  match outcome with
  | .timedOut so se =>
    { tool := name, cmd := cmd,
      cwd := PyPath.abspath procCwd (Audit.pyOrS cwd procCwd),
      returncode := 124, duration_s := duration,
      stdout := so.getD "",
      stderr := (se.getD "") ++ timeoutMarker timeout_s,
      parsed_json := none }
  | .completed rc out err =>
    let txt := Audit.pyStrip out
    let parsed :=
      if Audit.startsWithChar txt '{' || Audit.startsWithChar txt '[' then
        jsonLoads txt
      else none
    { tool := name, cmd := cmd,
      cwd := PyPath.abspath procCwd (Audit.pyOrS cwd procCwd),
      returncode := rc, duration_s := duration,
      stdout := out, stderr := err, parsed_json := parsed }

/-- C3: when the command exceeds its timeout, `_run` returns normally (it is
a total function of the outcome, with no exceptional result) with exit code
124, stdout equal to the partial captured stdout, stderr equal to the
partial captured stderr with the timeout marker appended as a suffix, and no
parsed payload. -/
theorem timeout_synthesis (name : String) (timeout_s : Nat) (procCwd : String)
    (jsonLoads : String → Option String) (duration : ℚ) (cmd : List String)
    (cwd : Option String) (so se : Option String) :
    (toolRun name timeout_s procCwd jsonLoads duration cmd cwd
      (.timedOut so se)).returncode = 124 ∧
    (toolRun name timeout_s procCwd jsonLoads duration cmd cwd
      (.timedOut so se)).stdout = so.getD "" ∧
    (toolRun name timeout_s procCwd jsonLoads duration cmd cwd
      (.timedOut so se)).stderr = (se.getD "") ++ timeoutMarker timeout_s ∧
    (∃ s0, (toolRun name timeout_s procCwd jsonLoads duration cmd cwd
      (.timedOut so se)).stderr = s0 ++ timeoutMarker timeout_s) ∧
    (toolRun name timeout_s procCwd jsonLoads duration cmd cwd
      (.timedOut so se)).parsed_json = none :=
  ⟨rfl, rfl, rfl, ⟨se.getD "", rfl⟩, rfl⟩

end Sandbox

namespace Jscpd

/-- One clone side as read by `JscpdTool.parse`: the file (`name` falling
back to `file`), the `startLoc.line`/`endLoc.line` integers, and the flat
`start`/`end` fallbacks. -/
structure CloneInst where
  name : Option String := none
  file : Option String := none
  startLocLine : Option Int := none
  endLocLine : Option Int := none
  startRaw : Option Int := none
  endRaw : Option Int := none
deriving DecidableEq, Repr

/-- One raw clone entry of the JSON report: format/language, line and token
counts, and its instance list.  `_pair_instances` normalizes the three JSCPD
layouts (`firstFile`/`secondFile`, `duplicationA`/`duplicationB`,
`instances`) to the first two instances, so the model keeps one list. -/
structure Clone where
  format : Option String := none
  lines : Option Int := none
  tokens : Option Int := none
  insts : List CloneInst := []
deriving DecidableEq, Repr

/-- `_pair_instances`: the two sides of a clone, or nothing when fewer than
two are present. -/
def _pair_instances (c : Clone) : List CloneInst :=
  if c.insts.length ≥ 2 then c.insts.take 2 else []

/-- `_span`: prefer `startLoc.line`/`endLoc.line`, fall back to flat
`start`/`end`. -/
def _span (i : CloneInst) : Option Int × Option Int :=
  (match i.startLocLine with
   | some v => some v
   | none => i.startRaw,
   match i.endLocLine with
   | some v => some v
   | none => i.endRaw)

/-- `inst.get("name") or inst.get("file")` (Python truthiness). -/
def pyOrOpt (x y : Option String) : Option String :=
  if Audit.truthyS x then x else y

/-- `_rel`: the path made relative to the resolved repo root when it is
under it, the original string otherwise (`relative_to` raising), `None` for
falsy input.  `procCwd` stands for the process working directory used by
`Path.resolve`. -/
def _rel (procCwd root : String) (p : Option String) : Option String :=
  match p with
  | none => none
  | some s =>
    if s = "" then none
    else
      let rp := PyPath.parts (PyPath.resolve procCwd s)
      let rr := PyPath.parts (PyPath.resolve procCwd root)
      if rr.isPrefixOf rp then some (PyPath.renderParts (rp.drop rr.length))
      else some s

/-- Python rendering of an optional string inside an f-string. -/
def pyShowOptS : Option String → String
  | none => "None"
  | some s => s

/-- The finding message built for each clone. -/
def cloneMsg (lines tokens : Option Int) (a_file b_file : Option String) : String :=
  let token_str :=
    match tokens with
    | some t => toString t ++ " tokens"
    | none => "n/a tokens"
  let lines_str := if Audit.truthyI lines then toString (lines.getD 0) else "n/a"
  "Duplicate block (" ++ lines_str ++ " lines, " ++ token_str ++ ") between " ++
    pyShowOptS a_file ++ " and " ++ pyShowOptS b_file

/-- The sort/dedup key of one clone side:
`(file or "", int(start or 0), int(end or 0))`. -/
def instKey (f : Option String) (s e : Option Int) : String × Int × Int :=
  (f.getD "", s.getD 0, e.getD 0)

/-- Lexicographic comparison of side keys, exactly Python tuple `<`. -/
def keyLt (x y : String × Int × Int) : Bool :=
  if x.1 < y.1 then true
  else if x.1 = y.1 then
    if x.2.1 < y.2.1 then true
    else if x.2.1 = y.2.1 then decide (x.2.2 < y.2.2)
    else false
  else false

/-- `_norm_pair`: `tuple(sorted([a_key, b_key]))` — the unordered pair key. -/
def _norm_pair (ak bk : String × Int × Int) :
    (String × Int × Int) × (String × Int × Int) :=
  if keyLt bk ak then (bk, ak) else (ak, bk)

/-- The options of `JscpdTool.__init__` that `parse` consults, with the
constructor defaults (`emit_both_sides=False`, `allow_intra_file=True`). -/
structure JscpdOpts where
  emit_both_sides : Bool := false
  allow_intra_file : Bool := true
deriving DecidableEq, Repr

/-- One normalized duplication finding (`Finding` dataclass); the `extra`
dict is flattened into the `fmt`/`tokens`/`lines`/`counterpart`/`raw`
fields. -/
structure Finding where
  name : String
  tool : String
  rule_id : Option String
  message : String
  file : Option String
  line : Option Int
  col : Option Int
  end_line : Option Int
  end_col : Option Int
  category : Option String
  kind : String
  fmt : Option String
  tokens : Option Int
  lines : Option Int
  counterpart : Option String × Option Int × Option Int
  raw : Clone
deriving DecidableEq, Repr

/-- The `_mk_finding` closure of `JscpdTool.parse`. -/
def _mk_finding (msg : String) (fmt : Option String) (tokens lines : Option Int)
    (raw : Clone) (f : Option String) (s e : Option Int)
    (cf : Option String) (cs ce : Option Int) : Finding :=
  { name := "jscpd.duplicate", tool := "jscpd", rule_id := some "duplicate",
    message := msg, file := f, line := s, col := none, end_line := e,
    end_col := none, category := some "Duplicate Code", kind := "analysis",
    fmt := fmt, tokens := tokens, lines := lines, counterpart := (cf, cs, ce),
    raw := raw }

/-- `files_with_dups.add` guarded by Python truthiness. -/
def addFile (fs : List String) (f : Option String) : List String :=
  if Audit.truthyS f then (if f.getD "" ∈ fs then fs else fs ++ [f.getD ""])
  else fs

/-- The loop state of `JscpdTool.parse`: the `seen_pairs` set, the
`files_with_dups` set, and the findings emitted so far. -/
structure ParseSt where
  seen : List ((String × Int × Int) × (String × Int × Int)) := []
  files : List String := []
  findings : List Finding := []
deriving DecidableEq, Repr

/-- One iteration of the `for clone in clones_arr` loop of
`JscpdTool.parse` (`auditor/tools/common/jscpd.py` lines 160-229). -/
def parseStep (o : JscpdOpts) (procCwd repo : String) (st : ParseSt)
    (clone : Clone) : ParseSt :=
  match _pair_instances clone with
  | a :: b :: _ =>
    let a_file := _rel procCwd repo (pyOrOpt a.name a.file)
    let b_file := _rel procCwd repo (pyOrOpt b.name b.file)
    let a_span := _span a
    let b_span := _span b
    if ¬o.allow_intra_file ∧ a_file = b_file then st
    else
      let key := _norm_pair (instKey a_file a_span.1 a_span.2)
        (instKey b_file b_span.1 b_span.2)
      if ¬o.emit_both_sides ∧ key ∈ st.seen then st
      else
        let seen1 := if key ∈ st.seen then st.seen else st.seen ++ [key]
        let files1 := addFile (addFile st.files a_file) b_file
        let msg := cloneMsg clone.lines clone.tokens a_file b_file
        let mk := _mk_finding msg clone.format clone.tokens clone.lines clone
        if o.emit_both_sides then
          { seen := seen1, files := files1,
            findings := st.findings ++
              [mk a_file a_span.1 a_span.2 b_file b_span.1 b_span.2,
               mk b_file b_span.1 b_span.2 a_file a_span.1 a_span.2] }
        else
          let chosen :=
            if keyLt (instKey b_file b_span.1 b_span.2)
                (instKey a_file a_span.1 a_span.2) then
              mk b_file b_span.1 b_span.2 a_file a_span.1 a_span.2
            else
              mk a_file a_span.1 a_span.2 b_file b_span.1 b_span.2
          { seen := seen1, files := files1, findings := st.findings ++ [chosen] }
  | _ => st

/-- `JscpdTool.parse` over the extracted clone list (`data.get("clones") or
data.get("duplicates") or []`; a non-list payload contributes nothing). -/
def parse (o : JscpdOpts) (procCwd repo : String) (clones : List Clone) :
    List Finding :=
  (clones.foldl (parseStep o procCwd repo) {}).findings

end Jscpd

namespace Jscpd

theorem keyLt_asymm : ∀ {x y : String × Int × Int},
    keyLt x y = true → keyLt y x = false := by
  intro ⟨x1, x2, x3⟩ ⟨y1, y2, y3⟩ h
  simp only [keyLt] at h ⊢
  by_cases ha : x1 < y1
  · simp [asymm ha, ne_of_gt ha]
  · by_cases hb : x1 = y1
    · subst hb
      simp only [lt_irrefl, if_false, if_pos rfl] at h ⊢
      by_cases hc : x2 < y2
      · simp [asymm hc, ne_of_gt hc]
      · by_cases hd : x2 = y2
        · subst hd
          simp only [lt_irrefl, if_false, if_pos rfl] at h ⊢
          simp at h ⊢
          omega
        · simp [hc, hd] at h
    · simp [ha, hb] at h

theorem keyLt_conn : ∀ {x y : String × Int × Int},
    keyLt x y = false → keyLt y x = false → x = y := by
  intro ⟨x1, x2, x3⟩ ⟨y1, y2, y3⟩ h1 h2
  simp only [keyLt] at h1 h2
  by_cases ha : x1 < y1
  · simp [ha] at h1
  · by_cases hb : y1 < x1
    · simp [hb] at h2
    · have he1 : x1 = y1 := le_antisymm (not_lt.mp hb) (not_lt.mp ha)
      subst he1
      simp only [lt_irrefl, if_false, if_pos rfl] at h1 h2
      by_cases hc : x2 < y2
      · simp [hc] at h1
      · by_cases hd : y2 < x2
        · simp [hd] at h2
        · have he2 : x2 = y2 := by omega
          subst he2
          simp only [lt_irrefl, if_false, if_pos rfl] at h1 h2
          simp at h1 h2
          have : x3 = y3 := by omega
          subst this
          rfl

theorem norm_pair_comm (ak bk : String × Int × Int) :
    _norm_pair ak bk = _norm_pair bk ak := by
  unfold _norm_pair
  by_cases h1 : keyLt bk ak = true
  · rw [if_pos h1, if_neg (by rw [keyLt_asymm h1]; simp)]
  · rw [if_neg (by simp [h1])]
    by_cases h2 : keyLt ak bk = true
    · rw [if_pos h2]
    · rw [if_neg (by simp [h2])]
      have he : bk = ak := keyLt_conn (by simpa using h1) (by simpa using h2)
      rw [he]

end Jscpd

namespace Jscpd

/-- The dedup/sort key of one side of a clone as `parse` computes it. -/
def sideKey (procCwd repo : String) (i : CloneInst) : String × Int × Int :=
  instKey (_rel procCwd repo (pyOrOpt i.name i.file)) (_span i).1 (_span i).2

/-- C2: a report carrying one clone as the ordered pair `(A, B)` and again as
`(B, A)` yields exactly one finding under the default options: the unordered
key of the sorted `(file, start, end)` triples collapses the mirrored entry,
the lexically-first side becomes the primary location, and the other side is
recorded as the counterpart metadata. -/
theorem symmetric_pair_dedup (procCwd repo : String) (fmt : Option String)
    (lines tokens : Option Int) (a b : CloneInst) :
    (parse {} procCwd repo
        [⟨fmt, lines, tokens, [a, b]⟩, ⟨fmt, lines, tokens, [b, a]⟩]).length = 1 ∧
    parse {} procCwd repo
        [⟨fmt, lines, tokens, [a, b]⟩, ⟨fmt, lines, tokens, [b, a]⟩] =
      [if keyLt (sideKey procCwd repo b) (sideKey procCwd repo a) then
        _mk_finding
          (cloneMsg lines tokens (_rel procCwd repo (pyOrOpt a.name a.file))
            (_rel procCwd repo (pyOrOpt b.name b.file)))
          fmt tokens lines ⟨fmt, lines, tokens, [a, b]⟩
          (_rel procCwd repo (pyOrOpt b.name b.file)) (_span b).1 (_span b).2
          (_rel procCwd repo (pyOrOpt a.name a.file)) (_span a).1 (_span a).2
      else
        _mk_finding
          (cloneMsg lines tokens (_rel procCwd repo (pyOrOpt a.name a.file))
            (_rel procCwd repo (pyOrOpt b.name b.file)))
          fmt tokens lines ⟨fmt, lines, tokens, [a, b]⟩
          (_rel procCwd repo (pyOrOpt a.name a.file)) (_span a).1 (_span a).2
          (_rel procCwd repo (pyOrOpt b.name b.file)) (_span b).1 (_span b).2] := by
  suffices h : parse {} procCwd repo
      [⟨fmt, lines, tokens, [a, b]⟩, ⟨fmt, lines, tokens, [b, a]⟩] =
      [if keyLt (sideKey procCwd repo b) (sideKey procCwd repo a) then
        _mk_finding
          (cloneMsg lines tokens (_rel procCwd repo (pyOrOpt a.name a.file))
            (_rel procCwd repo (pyOrOpt b.name b.file)))
          fmt tokens lines ⟨fmt, lines, tokens, [a, b]⟩
          (_rel procCwd repo (pyOrOpt b.name b.file)) (_span b).1 (_span b).2
          (_rel procCwd repo (pyOrOpt a.name a.file)) (_span a).1 (_span a).2
      else
        _mk_finding
          (cloneMsg lines tokens (_rel procCwd repo (pyOrOpt a.name a.file))
            (_rel procCwd repo (pyOrOpt b.name b.file)))
          fmt tokens lines ⟨fmt, lines, tokens, [a, b]⟩
          (_rel procCwd repo (pyOrOpt a.name a.file)) (_span a).1 (_span a).2
          (_rel procCwd repo (pyOrOpt b.name b.file)) (_span b).1 (_span b).2] by
    refine ⟨by rw [h]; rfl, h⟩
  rw [show (parse {} procCwd repo
      [⟨fmt, lines, tokens, [a, b]⟩, ⟨fmt, lines, tokens, [b, a]⟩]) =
    (parseStep {} procCwd repo
      (parseStep {} procCwd repo {} ⟨fmt, lines, tokens, [a, b]⟩)
      ⟨fmt, lines, tokens, [b, a]⟩).findings from rfl]
  norm_num [parseStep, _pair_instances]
  rw [norm_pair_comm (instKey (_rel procCwd repo (pyOrOpt b.name b.file))
      (_span b).1 (_span b).2)
    (instKey (_rel procCwd repo (pyOrOpt a.name a.file)) (_span a).1 (_span a).2)]
  simp [sideKey]

end Jscpd

namespace Orch

/-- The collected outcome of one (tool, target) unit as `audit_file` sees
it: the supervising `future.result()` raised (`crashed`); or it returned the
exit code and captured streams, after which `_load_run_result` either
yields the tool's run record (kept as its raw JSON text) or raises with a
message (`parsing_failed`). -/
inductive UnitOutcome where
  | crashed (err : String)
  | done (returncode : Int) (stdout stderr : String) (load : Except String String)
deriving Repr

/-- Sort a string list (`sorted(results.keys())`). -/
def sortStrings (l : List String) : List String :=
  l.mergeSort (fun a b => decide (a ≤ b))

/-- One summary artifact (`_flush_summary`): requested tools, successfully
loaded tools (sorted), and the failed tools with exit code and message.
Timing fields are outside the model; the disk write is gated on the DEBUG
flag, the model records every `_flush_summary` call with its content. -/
structure Summary where
  tools_requested : List String
  tools_ok : List String
  tools_failed : List (String × Int × String)
deriving DecidableEq, Repr

/-- The engine's state across `audit_file`: the `results` and `errors`
dicts (association lists in completion order), the lifecycle event stream,
the summary flushes, and the tools whose rows were persisted. -/
structure OrchState where
  results : List (String × String) := []
  errors : List (String × Int × String) := []
  events : List (String × String) := []
  flushes : List Summary := []
  persisted : List String := []
deriving DecidableEq, Repr

/-- Append one `_flush_summary` call. -/
def flushSummary (tools : List String) (st : OrchState) : OrchState :=
  { st with flushes := st.flushes ++
      [{ tools_requested := tools,
         tools_ok := sortStrings (st.results.map (·.1)),
         tools_failed := st.errors }] }

/-- `(stderr or stdout or "unknown error").strip()`. -/
def failMessage (stdout stderr : String) : String :=
  Audit.pyStrip (Audit.pyOrS (some stderr) (Audit.pyOrS (some stdout) "unknown error"))

/-- The `as_completed` loop of `audit_file` (`orchestrator.py` lines
654-780), processing units in completion order: a crash, a non-zero exit,
or a load failure records the error and, with stop-on-error, flushes the
summary and propagates the error, skipping every unit not yet completed;
otherwise the loop continues.  A clean unit stashes its run record. -/
def processUnits (outcomes : String → UnitOutcome) (tools : List String)
    (stopOnError : Bool) : List String → OrchState → OrchState × Except String Unit
  | [], st => (st, .ok ())
  | t :: rest, st =>
    match outcomes t with
    | .crashed e =>
      let st1 := { st with
        errors := st.errors ++ [(t, -1, e)],
        events := st.events ++ [("crashed", t)] }
      if stopOnError then (flushSummary tools st1, .error e)
      else processUnits outcomes tools stopOnError rest st1
    | .done rc out err load =>
      if rc ≠ 0 then
        let msg := failMessage out err
        let st1 := { st with
          errors := st.errors ++ [(t, rc, msg)],
          events := st.events ++ [("failed", t)] }
        if stopOnError then
          (flushSummary tools st1,
           .error (t ++ " failed (exit " ++ toString rc ++ "): " ++ msg))
        else processUnits outcomes tools stopOnError rest st1
      else
        match load with
        | .ok payload =>
          processUnits outcomes tools stopOnError rest
            { st with
              results := st.results ++ [(t, payload)],
              events := st.events ++ [("finished", t)] }
        | .error e =>
          let st1 := { st with
            errors := st.errors ++ [(t, rc, e)],
            events := st.events ++ [("parsing_failed", t)] }
          if stopOnError then (flushSummary tools st1, .error e)
          else processUnits outcomes tools stopOnError rest st1

/-- The persistence loop (`for tool in tools` after the pool closes): each
tool with a stashed run record is parsed and saved (`parse_to_models` +
`save_scan_and_rows`); tools without one are skipped. -/
def persistPhase (tools : List String) (st : OrchState) : OrchState :=
  tools.foldl
    (fun acc t =>
      let acc1 := { acc with events := acc.events ++ [("processing_started", t)] }
      if acc.results.any (fun p => p.1 = t) then
        { acc1 with
          persisted := acc1.persisted ++ [t],
          events := acc1.events ++ [("processing_finished", t)] }
      else acc1)
    st

/-- `audit_file` (`orchestrator.py` lines 604-814) as a function of the
per-unit outcomes and the completion order: submit all units, process
completions (an exception under stop-on-error aborts everything after the
flush), then persist the stashed results, flush the final summary and emit
the closing event.  The returned `Except` is the raise/return behaviour. -/
def audit_file (tools : List String) (stopOnError : Bool)
    (outcomes : String → UnitOutcome) (order : List String) :
    OrchState × Except String Unit :=
  let st0 : OrchState := { events := tools.map (fun t => ("submitted", t)) }
  let r := processUnits outcomes tools stopOnError order st0
  match r.2 with
  | .error e => (r.1, .error e)
  | .ok _ =>
    let st1 := persistPhase tools r.1
    let st2 := flushSummary tools st1
    let st3 :=
      if st2.errors ≠ [] ∧ ¬stopOnError then
        { st2 with events := st2.events ++ [("completed_with_errors", "__all__")] }
      else { st2 with events := st2.events ++ [("completed", "__all__")] }
    (st3, .ok ())

/-- The CLI-level exit code: 0 when `audit_file` returns, 1 when it raises
under stop-on-error (`cli.py`, `raise typer.Exit(code=1)`). -/
def cliExitCode (r : Except String Unit) : Nat :=
  match r with
  | .ok _ => 0
  | .error _ => 1

/-- A unit succeeded: collected with exit code 0 and its record loaded. -/
def unitOk : UnitOutcome → Bool
  | .crashed _ => false
  | .done rc _ _ load =>
    rc = 0 && (match load with | .ok _ => true | .error _ => false)

/-- The exit code and message recorded in `errors` for a failing unit. -/
def failInfo : UnitOutcome → Int × String
  | .crashed e => (-1, e)
  | .done rc out err load =>
    if rc ≠ 0 then (rc, failMessage out err)
    else
      match load with
      | .error e => (rc, e)
      | .ok _ => (0, "")

/-- The loaded payload of a successful unit. -/
def loadPayload : UnitOutcome → String
  | .done _ _ _ (.ok p) => p
  | _ => ""

end Orch

namespace Orch

theorem pu_stop (outcomes : String → UnitOutcome) (tools : List String)
    (bt : String) (hb : unitOk (outcomes bt) = false) :
    ∀ (o1 : List String), (∀ t ∈ o1, unitOk (outcomes t) = true) →
    ∀ (o2 : List String) (st : OrchState),
    (∃ e st', processUnits outcomes tools true (o1 ++ bt :: o2) st =
        (flushSummary tools st', .error e) ∧
      st'.flushes = st.flushes ∧ st'.persisted = st.persisted) ∧
    (∀ o2', processUnits outcomes tools true (o1 ++ bt :: o2') st =
      processUnits outcomes tools true (o1 ++ bt :: o2) st) := by
  intro o1
  induction o1 with
  | nil =>
    intro _ o2 st
    constructor
    · cases ho : outcomes bt with
      | crashed e =>
        refine ⟨e, { st with
          errors := st.errors ++ [(bt, -1, e)],
          events := st.events ++ [("crashed", bt)] }, ?_, rfl, rfl⟩
        simp [processUnits, ho]
      | done rc out err load =>
        by_cases hrc : rc = 0
        · cases load with
          | ok p => simp [unitOk, ho, hrc] at hb
          | error e =>
            subst hrc
            refine ⟨e, { st with
              errors := st.errors ++ [(bt, 0, e)],
              events := st.events ++ [("parsing_failed", bt)] }, ?_, rfl, rfl⟩
            simp [processUnits, ho]
        · refine ⟨bt ++ " failed (exit " ++ toString rc ++ "): " ++
            failMessage out err, { st with
              errors := st.errors ++ [(bt, rc, failMessage out err)],
              events := st.events ++ [("failed", bt)] }, ?_, rfl, rfl⟩
          simp [processUnits, ho, hrc]
    · intro o2'
      cases ho : outcomes bt with
      | crashed e => simp [processUnits, ho]
      | done rc out err load =>
        by_cases hrc : rc = 0
        · cases load with
          | ok p => simp [unitOk, ho, hrc] at hb
          | error e => simp [processUnits, ho, hrc]
        · simp [processUnits, ho, hrc]
  | cons t o1' ih =>
    intro h1 o2 st
    have hok : unitOk (outcomes t) = true := h1 t (by simp)
    cases ho : outcomes t with
    | crashed e => simp [unitOk, ho] at hok
    | done rc out err load =>
      rw [ho] at hok
      cases load with
      | error e => simp [unitOk] at hok
      | ok p =>
        have hrc : rc = 0 := by
          simp [unitOk] at hok
          exact hok
        subst hrc
        have hstep : ∀ (oo : List String),
            processUnits outcomes tools true (t :: oo) st =
            processUnits outcomes tools true oo
              { st with
                results := st.results ++ [(t, p)],
                events := st.events ++ [("finished", t)] } := by
          intro oo
          simp [processUnits, ho]
        obtain ⟨⟨e, st', heq, hfl, hper⟩, htail⟩ :=
          ih (fun x hx => h1 x (by simp [hx])) o2
            { st with
              results := st.results ++ [(t, p)],
              events := st.events ++ [("finished", t)] }
        constructor
        · refine ⟨e, st', ?_, hfl, hper⟩
          rw [List.cons_append, hstep, heq]
        · intro o2'
          rw [List.cons_append, List.cons_append, hstep, hstep, htail o2']

end Orch

namespace Orch

/-- C7: under stop-on-error, as soon as a unit fails (non-zero exit),
crashes, or fails to load, `audit_file` flushes exactly one summary
artifact, persists nothing, propagates a single fatal error to the caller,
and every unit not yet completed is never executed: the run's outcome does
not depend on what the cancelled units would have produced. -/
theorem stop_on_error_cancellation (tools : List String)
    (outcomes : String → UnitOutcome) (o1 o2 : List String) (bt : String)
    (h1 : ∀ t ∈ o1, unitOk (outcomes t) = true)
    (hb : unitOk (outcomes bt) = false) :
    (∃ e, (audit_file tools true outcomes (o1 ++ bt :: o2)).2 = Except.error e) ∧
    (audit_file tools true outcomes (o1 ++ bt :: o2)).1.flushes.length = 1 ∧
    (audit_file tools true outcomes (o1 ++ bt :: o2)).1.persisted = [] ∧
    (∀ o2', audit_file tools true outcomes (o1 ++ bt :: o2') =
      audit_file tools true outcomes (o1 ++ bt :: o2)) := by
  obtain ⟨⟨e, st', heq, hfl, hper⟩, htail⟩ :=
    pu_stop outcomes tools bt hb o1 h1 o2
      { events := tools.map (fun t => ("submitted", t)) }
  refine ⟨⟨e, ?_⟩, ?_, ?_, ?_⟩
  · simp only [audit_file, heq]
  · simp only [audit_file, heq]
    simp [flushSummary, hfl]
  · simp only [audit_file, heq]
    simp [flushSummary, hper]
  · intro o2'
    simp only [audit_file, htail o2']

/-- Witness for C7: tools `[A(ok), B(fails)]` with `C` still pending when
`B` fails. -/
theorem stop_on_error_cancellation_witness :
    (∀ t ∈ ["ta"], unitOk ((fun t => if t = "tb"
        then UnitOutcome.done 2 "" "boom" (Except.ok "{}")
        else UnitOutcome.done 0 "out" "" (Except.ok "{}")) t) = true) ∧
    (unitOk ((fun t => if t = "tb"
        then UnitOutcome.done 2 "" "boom" (Except.ok "{}")
        else UnitOutcome.done 0 "out" "" (Except.ok "{}")) "tb") = false) ∧
    ((∃ e, (audit_file ["ta", "tb", "tc"] true (fun t => if t = "tb"
        then UnitOutcome.done 2 "" "boom" (Except.ok "{}")
        else UnitOutcome.done 0 "out" "" (Except.ok "{}"))
        (["ta"] ++ "tb" :: ["tc"])).2 = Except.error e) ∧
    (audit_file ["ta", "tb", "tc"] true (fun t => if t = "tb"
        then UnitOutcome.done 2 "" "boom" (Except.ok "{}")
        else UnitOutcome.done 0 "out" "" (Except.ok "{}"))
        (["ta"] ++ "tb" :: ["tc"])).1.flushes.length = 1 ∧
    (audit_file ["ta", "tb", "tc"] true (fun t => if t = "tb"
        then UnitOutcome.done 2 "" "boom" (Except.ok "{}")
        else UnitOutcome.done 0 "out" "" (Except.ok "{}"))
        (["ta"] ++ "tb" :: ["tc"])).1.persisted = [] ∧
    (∀ o2', audit_file ["ta", "tb", "tc"] true (fun t => if t = "tb"
        then UnitOutcome.done 2 "" "boom" (Except.ok "{}")
        else UnitOutcome.done 0 "out" "" (Except.ok "{}"))
        (["ta"] ++ "tb" :: o2') =
      audit_file ["ta", "tb", "tc"] true (fun t => if t = "tb"
        then UnitOutcome.done 2 "" "boom" (Except.ok "{}")
        else UnitOutcome.done 0 "out" "" (Except.ok "{}"))
        (["ta"] ++ "tb" :: ["tc"]))) :=
  ⟨by decide, by decide,
   stop_on_error_cancellation ["ta", "tb", "tc"] _ ["ta"] ["tc"] "tb"
     (by decide) (by decide)⟩

end Orch

namespace Orch

theorem pu_nostop (outcomes : String → UnitOutcome) (tools : List String) :
    ∀ (order : List String) (st : OrchState),
    (processUnits outcomes tools false order st).2 = .ok () ∧
    (processUnits outcomes tools false order st).1.results =
      st.results ++ (order.filter (fun t => unitOk (outcomes t))).map
        (fun t => (t, loadPayload (outcomes t))) ∧
    (processUnits outcomes tools false order st).1.errors =
      st.errors ++ (order.filter (fun t => !unitOk (outcomes t))).map
        (fun t => (t, (failInfo (outcomes t)).1, (failInfo (outcomes t)).2)) ∧
    (processUnits outcomes tools false order st).1.flushes = st.flushes ∧
    (processUnits outcomes tools false order st).1.persisted = st.persisted := by
  intro order
  induction order with
  | nil => intro st; simp [processUnits]
  | cons t rest ih =>
    intro st
    cases ho : outcomes t with
    | crashed e =>
      have hstep : processUnits outcomes tools false (t :: rest) st =
          processUnits outcomes tools false rest
            { st with
              errors := st.errors ++ [(t, -1, e)],
              events := st.events ++ [("crashed", t)] } := by
        simp [processUnits, ho]
      obtain ⟨ih1, ih2, ih3, ih4, ih5⟩ := ih
        { st with
          errors := st.errors ++ [(t, -1, e)],
          events := st.events ++ [("crashed", t)] }
      rw [hstep]
      refine ⟨ih1, ?_, ?_, ih4, ih5⟩
      · rw [ih2]
        simp [List.filter_cons, unitOk, ho]
      · rw [ih3]
        simp [List.filter_cons, unitOk, ho, failInfo]
    | done rc out err load =>
      by_cases hrc : rc = 0
      · subst hrc
        cases load with
        | ok p =>
          have hstep : processUnits outcomes tools false (t :: rest) st =
              processUnits outcomes tools false rest
                { st with
                  results := st.results ++ [(t, p)],
                  events := st.events ++ [("finished", t)] } := by
            simp [processUnits, ho]
          obtain ⟨ih1, ih2, ih3, ih4, ih5⟩ := ih
            { st with
              results := st.results ++ [(t, p)],
              events := st.events ++ [("finished", t)] }
          rw [hstep]
          refine ⟨ih1, ?_, ?_, ih4, ih5⟩
          · rw [ih2]
            simp [List.filter_cons, unitOk, ho, loadPayload]
          · rw [ih3]
            simp [List.filter_cons, unitOk, ho]
        | error e =>
          have hstep : processUnits outcomes tools false (t :: rest) st =
              processUnits outcomes tools false rest
                { st with
                  errors := st.errors ++ [(t, 0, e)],
                  events := st.events ++ [("parsing_failed", t)] } := by
            simp [processUnits, ho]
          obtain ⟨ih1, ih2, ih3, ih4, ih5⟩ := ih
            { st with
              errors := st.errors ++ [(t, 0, e)],
              events := st.events ++ [("parsing_failed", t)] }
          rw [hstep]
          refine ⟨ih1, ?_, ?_, ih4, ih5⟩
          · rw [ih2]
            simp [List.filter_cons, unitOk, ho]
          · rw [ih3]
            simp [List.filter_cons, unitOk, ho, failInfo]
      · have hstep : processUnits outcomes tools false (t :: rest) st =
            processUnits outcomes tools false rest
              { st with
                errors := st.errors ++ [(t, rc, failMessage out err)],
                events := st.events ++ [("failed", t)] } := by
          simp [processUnits, ho, hrc]
        obtain ⟨ih1, ih2, ih3, ih4, ih5⟩ := ih
          { st with
            errors := st.errors ++ [(t, rc, failMessage out err)],
            events := st.events ++ [("failed", t)] }
        rw [hstep]
        refine ⟨ih1, ?_, ?_, ih4, ih5⟩
        · rw [ih2]
          simp [List.filter_cons, unitOk, ho, hrc]
        · rw [ih3]
          simp [List.filter_cons, unitOk, ho, hrc, failInfo]

theorem persist_spec (tools : List String) :
    ∀ st : OrchState,
    (persistPhase tools st).results = st.results ∧
    (persistPhase tools st).errors = st.errors ∧
    (persistPhase tools st).flushes = st.flushes ∧
    (persistPhase tools st).persisted =
      st.persisted ++ tools.filter (fun t => st.results.any (fun p => p.1 = t)) := by
  induction tools with
  | nil => intro st; simp [persistPhase]
  | cons t ts ih =>
    intro st
    by_cases hc : st.results.any (fun p => p.1 = t) = true
    · have hstep : persistPhase (t :: ts) st =
          persistPhase ts
            { st with
              persisted := st.persisted ++ [t],
              events := (st.events ++ [("processing_started", t)]) ++
                [("processing_finished", t)] } := by
        simp [persistPhase, hc]
      obtain ⟨ih1, ih2, ih3, ih4⟩ := ih
        { st with
          persisted := st.persisted ++ [t],
          events := (st.events ++ [("processing_started", t)]) ++
            [("processing_finished", t)] }
      rw [hstep]
      refine ⟨ih1, ih2, ih3, ?_⟩
      rw [ih4]
      simp [List.filter_cons, hc]
    · have hstep : persistPhase (t :: ts) st =
          persistPhase ts
            { st with events := st.events ++ [("processing_started", t)] } := by
        simp [persistPhase, hc]
      obtain ⟨ih1, ih2, ih3, ih4⟩ := ih
        { st with events := st.events ++ [("processing_started", t)] }
      rw [hstep]
      refine ⟨ih1, ih2, ih3, ?_⟩
      rw [ih4]
      simp [List.filter_cons, hc]

end Orch

namespace Orch

theorem any_map_general {α β : Type} (f : α → β) (l : List α) (p : β → Bool) :
    (l.map f).any p = l.any (p ∘ f) := by
  induction l with
  | nil => rfl
  | cons a t ih => simp [ih]

theorem map_fst_mk (f : String → String) (l : List String) :
    List.map ((fun x => x.1) ∘ fun t : String => (t, f t)) l = l := by
  induction l with
  | nil => rfl
  | cons a l ih => simp [ih, Function.comp]

/-- C8: without stop-on-error, a run in which some tools fail and the rest
succeed completes without raising (CLI exit code 0), flushes exactly one
summary whose failed-tools section lists exactly the failing tools with
their recorded exit code and captured message, and still parses and
persists every successful tool. -/
theorem partial_failure_summary (tools order : List String)
    (outcomes : String → UnitOutcome)
    (hperm : order.Perm tools)
    (hfail : ∃ t ∈ tools, unitOk (outcomes t) = false) :
    (audit_file tools false outcomes order).2 = .ok () ∧
    cliExitCode (audit_file tools false outcomes order).2 = 0 ∧
    (audit_file tools false outcomes order).1.flushes =
      [{ tools_requested := tools,
         tools_ok := sortStrings (order.filter fun t => unitOk (outcomes t)),
         tools_failed := (order.filter fun t => !unitOk (outcomes t)).map
           fun t => (t, (failInfo (outcomes t)).1, (failInfo (outcomes t)).2) }] ∧
    ((order.filter fun t => !unitOk (outcomes t)).map
        fun t => (t, (failInfo (outcomes t)).1, (failInfo (outcomes t)).2)).Perm
      ((tools.filter fun t => !unitOk (outcomes t)).map
        fun t => (t, (failInfo (outcomes t)).1, (failInfo (outcomes t)).2)) ∧
    (audit_file tools false outcomes order).1.persisted =
      (tools.filter fun t => unitOk (outcomes t)) := by
  obtain ⟨h1, h2, h3, h4, h5⟩ := pu_nostop outcomes tools order
    { events := tools.map fun t => ("submitted", t) }
  obtain ⟨p1, p2, p3, p4⟩ := persist_spec tools
    (processUnits outcomes tools false order
      { events := tools.map fun t => ("submitted", t) }).1
  have hok : (audit_file tools false outcomes order).2 = .ok () := by
    simp only [audit_file, h1]
  have hp : (persistPhase tools (processUnits outcomes tools false order
      { events := tools.map fun t => ("submitted", t) }).1).persisted =
      (tools.filter fun t => unitOk (outcomes t)) := by
    rw [p4, h5, h2]
    simp only [List.nil_append]
    apply List.filter_congr
    intro t ht
    rw [any_map_general]
    by_cases hu : unitOk (outcomes t) = true
    · rw [hu, List.any_eq_true]
      refine ⟨t, List.mem_filter.mpr ⟨hperm.mem_iff.mpr ht, hu⟩, by simp⟩
    · rw [Bool.not_eq_true] at hu
      rw [hu, List.any_eq_false]
      intro x hx
      have hxf := List.mem_filter.mp hx
      simp only [Function.comp]
      intro hcontra
      have hxt : x = t := by simpa using hcontra
      subst hxt
      rw [hxf.2] at hu
      cases hu
  refine ⟨hok, by rw [hok]; rfl, ?_, (hperm.filter _).map _, ?_⟩
  · simp only [audit_file, h1]
    split <;>
      simp [flushSummary, p3, p2, p1, h4, h2, h3, List.map_map, map_fst_mk]
  · simp only [audit_file, h1]
    split <;> simpa [flushSummary] using hp

end Orch

namespace Orch

/-- Concrete outcome table for the C8 witness: `tb` exits 2 with stderr
noise, every other tool succeeds. -/
def w8outcomes : String → UnitOutcome := fun t =>
  if t = "tb" then UnitOutcome.done 2 "" " boom " (Except.ok "{}")
  else UnitOutcome.done 0 "out" "" (Except.ok "{}")

/-- Witness for C8: tools `[ta(ok), tb(fails)]`, completion order reversed. -/
theorem partial_failure_summary_witness :
    (["tb", "ta"].Perm ["ta", "tb"]) ∧
    (∃ t ∈ ["ta", "tb"], unitOk (w8outcomes t) = false) ∧
    ((audit_file ["ta", "tb"] false w8outcomes ["tb", "ta"]).2 = .ok () ∧
    cliExitCode (audit_file ["ta", "tb"] false w8outcomes ["tb", "ta"]).2 = 0 ∧
    (audit_file ["ta", "tb"] false w8outcomes ["tb", "ta"]).1.flushes =
      [{ tools_requested := ["ta", "tb"],
         tools_ok := sortStrings (["tb", "ta"].filter fun t => unitOk (w8outcomes t)),
         tools_failed := (["tb", "ta"].filter fun t => !unitOk (w8outcomes t)).map
           fun t => (t, (failInfo (w8outcomes t)).1, (failInfo (w8outcomes t)).2) }] ∧
    ((["tb", "ta"].filter fun t => !unitOk (w8outcomes t)).map
        fun t => (t, (failInfo (w8outcomes t)).1, (failInfo (w8outcomes t)).2)).Perm
      ((["ta", "tb"].filter fun t => !unitOk (w8outcomes t)).map
        fun t => (t, (failInfo (w8outcomes t)).1, (failInfo (w8outcomes t)).2)) ∧
    (audit_file ["ta", "tb"] false w8outcomes ["tb", "ta"]).1.persisted =
      (["ta", "tb"].filter fun t => unitOk (w8outcomes t))) :=
  ⟨by decide, by decide,
   partial_failure_summary ["ta", "tb"] ["tb", "ta"] w8outcomes
     (by decide) (by decide)⟩

end Orch

namespace Cli

/-- The `--parallel` strategy enum of the CLI (`Parallel` in
`auditor_cli/cli.py`). -/
inductive Parallel where
  | auto
  | thread
  | process
  | none
deriving DecidableEq, Repr

/-- `inner_jobs = 1 if (parallel != Parallel.none and jobs > 1) else jobs`
(`cli.py` lines 864-867). -/
def inner_jobs (parallel : Parallel) (jobs : Nat) : Nat :=
  if parallel ≠ Parallel.none ∧ jobs > 1 then 1 else jobs

/-- The outer cross-project concurrency the configuration requests: the
worker count handed to `_choose_executor` (`jobs` for every parallel
strategy, one for sequential execution). -/
def outerCapacity (parallel : Parallel) (jobs : Nat) : Nat :=
  match parallel with
  | .none => 1
  | _ => jobs

/-- The realized number of concurrently running projects: the sequential
branch (`parallel == none or jobs == 1 or len(projects) == 1`) runs one at a
time, otherwise the project pool runs `min(jobs, projects)` at once. -/
def realizedOuter (parallel : Parallel) (jobs nproj : Nat) : Nat :=
  if parallel = Parallel.none ∨ jobs = 1 ∨ nproj = 1 then 1 else min jobs nproj

/-- The engine's worker count, `max(1, min(jobs, len(jobs_to_run)))`
(`orchestrator.py` line 638). -/
def engineWorkers (jobs nTools : Nat) : Nat := max 1 (min jobs nTools)

/-- C9: the per-project job count is clamped to exactly 1 whenever the
requested outer cross-project concurrency exceeds one worker, and equals
the requested job count otherwise; consequently the number of concurrent
analyzer processes (projects running at once times engine workers each) is
bounded by the requested job count, not its square. -/
theorem inner_jobs_clamp (parallel : Parallel) (jobs nproj nTools : Nat) :
    (inner_jobs parallel jobs =
      if outerCapacity parallel jobs > 1 then 1 else jobs) ∧
    (outerCapacity parallel jobs > 1 → inner_jobs parallel jobs = 1) ∧
    (outerCapacity parallel jobs ≤ 1 → inner_jobs parallel jobs = jobs) ∧
    realizedOuter parallel jobs nproj *
      engineWorkers (inner_jobs parallel jobs) nTools ≤ max jobs 1 := by
  refine ⟨?_, ?_, ?_, ?_⟩ <;>
    cases parallel <;>
      simp only [inner_jobs, outerCapacity, realizedOuter, engineWorkers] <;>
        split_ifs <;> simp_all <;> omega

end Cli
